import Mathlib

/-!
Verification of the Milky-Way-potential fitting notebook
(`docs/potential/define-milky-way-model.ipynb`).

The notebook defines a four-component composite potential model
(`get_potential`), a normalized residual function (`err_func`), a
symmetrized uncertainty (`np.max` of the positive and negative error
columns), and an optimizer driver that calls `scipy.optimize.leastsq`
and asserts that the returned status code lies in `range(1, 4+1)`.

The analytic enclosed-mass profiles (Hernquist, Miyamoto-Nagai, NFW) and
the least-squares solver live in external libraries and are not part of
the notebook's source; they are abstracted here as arbitrary functions,
so every theorem below holds for every choice of those externals.
-/

namespace MWModel

/-- A 3D position, as a column of the notebook's `xyz` array. -/
abbrev Vec3 : Type := ℝ × ℝ × ℝ

/-- The defining parameters of each analytic profile family, exactly the
values passed to the corresponding gala constructor in the notebook
(masses in Msun; lengths in the units of the literal call site:
bulge scale and halo scale radius in kpc, nucleus scale length and disk
scale height in pc, disk scale length in kpc). -/
inductive ProfileParams where
  | hernquist (m c : ℝ)
  | miyamotoNagai (m a b : ℝ)
  | nfw (m r_s : ℝ)

/-- One named component of a composite potential: its name (the key under
which the notebook inserts it), its defining parameters, and its
enclosed-mass function of 3D position. -/
structure Component where
  name : String
  params : ProfileParams
  massEnclosed : Vec3 → ℝ

instance : Inhabited Component := ⟨⟨"", ProfileParams.hernquist 0 0, fun _ => 0⟩⟩

/-- Modelled from the spec: the closed-form enclosed-mass expressions of
the Hernquist, Miyamoto-Nagai and NFW profile families are provided by
an external collaborator (the gala library, outside this notebook).
We abstract them as an arbitrary library of profile functions, mapping
the family's parameters to an enclosed-mass function of position. -/
structure ProfileLib where
  hernquist : ℝ → ℝ → Vec3 → ℝ
  miyamotoNagai : ℝ → ℝ → ℝ → Vec3 → ℝ
  nfw : ℝ → ℝ → Vec3 → ℝ

/-- The component built by `gp.HernquistPotential(m=…, c=…)` inserted
under the given key. -/
def HernquistPotential (lib : ProfileLib) (name : String) (m c : ℝ) : Component :=
  ⟨name, ProfileParams.hernquist m c, lib.hernquist m c⟩

/-- The component built by `gp.MiyamotoNagaiPotential(m=…, a=…, b=…)`
inserted under the given key. -/
def MiyamotoNagaiPotential (lib : ProfileLib) (name : String) (m a b : ℝ) : Component :=
  ⟨name, ProfileParams.miyamotoNagai m a b, lib.miyamotoNagai m a b⟩

/-- The component built by `gp.NFWPotential(m=…, r_s=…)` inserted under
the given key. -/
def NFWPotential (lib : ProfileLib) (name : String) (m r_s : ℝ) : Component :=
  ⟨name, ProfileParams.nfw m r_s, lib.nfw m r_s⟩

/-- The notebook's `get_potential(log_M_h, log_r_s, log_M_n, log_a)`:
a `CCompositePotential` is an ordered collection of named components;
the notebook inserts `bulge`, `disk`, `nucl`, `halo` in that order, the
bulge and disk with fixed literal parameters and the nucleus and halo
with the exponentials of the four log-space inputs. -/
noncomputable def get_potential (lib : ProfileLib) (log_M_h log_r_s log_M_n log_a : ℝ) : List Component :=
  [HernquistPotential lib "bulge" 5e9 1,
   MiyamotoNagaiPotential lib "disk" 6.8e10 3 280,
   HernquistPotential lib "nucl" (Real.exp log_M_n) (Real.exp log_a),
   NFWPotential lib "halo" (Real.exp log_M_h) (Real.exp log_r_s)]

/-- Modelled from the spec: `CCompositePotential.mass_enclosed` is gala
library code outside the notebook; per the spec, the composite's
enclosed mass at a position is the sum of its components' enclosed
masses there. -/
def mass_enclosed (pot : List Component) (pos : Vec3) : ℝ :=
  (pot.map (fun c => c.massEnclosed pos)).sum

/-- The notebook's `np.zeros((3, n))`, read as a list of `n` zero
positions (columns). -/
def np_zeros3 (n : ℕ) : List Vec3 := List.replicate n ((0, 0, 0) : Vec3)

/-- The notebook's `xyz[0] = r`: overwrite the first (x) coordinate of
each column with the corresponding radius, keeping y and z. -/
def set_x_row (r : List ℝ) (xyz : List Vec3) : List Vec3 :=
  List.zipWith (fun ri v => ((ri, v.2.1, v.2.2) : Vec3)) r xyz

/-- The notebook's `err_func(p, r, Menc, Menc_err)`: rebuild the
composite potential from the parameter 4-vector `p`, place each radius
at the x coordinate of an otherwise-zero position, evaluate the model's
enclosed mass there, and return `(model_menc - Menc) / Menc_err`
elementwise. -/
noncomputable def err_func (lib : ProfileLib) (p : ℝ × ℝ × ℝ × ℝ) (r Menc Menc_err : List ℝ) : List ℝ :=
  let pot := get_potential lib p.1 p.2.1 p.2.2.1 p.2.2.2
  let xyz := set_x_row r (np_zeros3 r.length)
  let model_menc := xyz.map (mass_enclosed pot)
  List.zipWith (fun x y => x / y) (List.zipWith (fun x y => x - y) model_menc Menc) Menc_err

/-- The notebook's `err = np.max([Menc_err_pos, Menc_err_neg], axis=0)`:
the elementwise maximum of the two uncertainty columns. -/
noncomputable def symmetrized_err (err_pos err_neg : List ℝ) : List ℝ :=
  List.zipWith max err_pos err_neg

/-- The notebook's initial guess
`x0 = [np.log(6E11), np.log(20.), np.log(2E9), np.log(100.)]`. -/
noncomputable def x0 : ℝ × ℝ × ℝ × ℝ := (Real.log 6e11, Real.log 20, Real.log 2e9, Real.log 100)

/-- Modelled from the spec: `scipy.optimize.leastsq` is an external
general-purpose solver; abstractly, it maps a residual function and an
initial guess to an optimized parameter vector together with an integer
status code `ier`. -/
def Solver : Type :=
  ((ℝ × ℝ × ℝ × ℝ) → List ℝ) → (ℝ × ℝ × ℝ × ℝ) → (ℝ × ℝ × ℝ × ℝ) × ℤ

/-- The notebook's fitting cell: symmetrize the uncertainties, run the
least-squares solver on `err_func` from `x0`, assert
`ier in range(1, 4+1)` with message "least-squares fit failed!", and on
success build the fitted potential from the optimized parameters.
A failed assertion halts the cell, so the failure branch carries only
the error message and no partial result. -/
noncomputable def fit_driver (lib : ProfileLib) (leastsq : Solver) (r Menc err_pos err_neg : List ℝ) :
    Except String ((ℝ × ℝ × ℝ × ℝ) × List Component) :=
  let err := symmetrized_err err_pos err_neg
  let res := leastsq (fun p => err_func lib p r Menc err) x0
  if 1 ≤ res.2 ∧ res.2 < 5 then
    Except.ok (res.1, get_potential lib res.1.1 res.1.2.1 res.1.2.2.1 res.1.2.2.2)
  else
    Except.error "least-squares fit failed!"

/-- A trivial profile library used to instantiate witnesses: every
profile reports enclosed mass equal to its mass parameter. -/
def toyLib : ProfileLib :=
  ⟨fun m _ _ => m, fun m _ _ _ => m, fun m _ _ => m⟩

/-- A trivial stand-in solver used to instantiate witnesses: it ignores
the residual function and reports status code 1 at the origin. -/
def toySolver : Solver := fun _ _ => ((0, 0, 0, 0), 1)

end MWModel

namespace MWModel

/-- Helper: elementwise description of `List.zipWith` through optional
indexing. -/
theorem getElem?_zipWith_some {α β γ : Type} (f : α → β → γ) :
    ∀ (as : List α) (bs : List β) (i : ℕ) (a : α) (b : β),
      as[i]? = some a → bs[i]? = some b →
      (List.zipWith f as bs)[i]? = some (f a b)
  | [], _, _, _, _, ha, _ => by simp at ha
  | _ :: _, [], _, _, _, _, hb => by simp at hb
  | x :: xs, y :: ys, 0, a, b, ha, hb => by
    simp only [List.getElem?_cons_zero, Option.some.injEq] at ha hb
    simp [ha, hb]
  | x :: xs, y :: ys, i + 1, a, b, ha, hb => by
    simpa using getElem?_zipWith_some f xs ys i a b (by simpa using ha) (by simpa using hb)

/-- Helper: elementwise description of `List.map` through optional
indexing. -/
theorem getElem?_map_some {α β : Type} (f : α → β) :
    ∀ (as : List α) (i : ℕ) (a : α), as[i]? = some a → (as.map f)[i]? = some (f a)
  | [], _, _, ha => by simp at ha
  | x :: xs, 0, a, ha => by
    simp only [List.getElem?_cons_zero, Option.some.injEq] at ha
    simp [ha]
  | x :: xs, i + 1, a, ha => by
    simpa using getElem?_map_some f xs i a (by simpa using ha)

/-- Helper: writing the radii into the x row of an all-zero array yields
exactly the positions `(r_i, 0, 0)`. -/
theorem set_x_row_np_zeros3 :
    ∀ r : List ℝ, set_x_row r (np_zeros3 r.length) = r.map (fun ri => ((ri, 0, 0) : Vec3))
  | [] => rfl
  | ri :: rest => by
    simpa [set_x_row, np_zeros3, List.replicate_succ] using set_x_row_np_zeros3 rest

/-- Helper: dividing the self-difference of a list by any list of the same
length gives the all-zero list. -/
theorem residuals_of_exact_model :
    ∀ (m E : List ℝ), E.length = m.length →
      List.zipWith (fun x y => x / y) (List.zipWith (fun x y => x - y) m m) E
        = List.replicate m.length 0
  | [], E, h => by simp
  | x :: xs, [], h => by simp at h
  | x :: xs, e :: es, h => by
    have h2 : es.length = xs.length := by simpa using h
    have hx := residuals_of_exact_model xs es h2
    simp only [List.zipWith_cons_cons, sub_self, zero_div, List.length_cons,
      List.replicate_succ]
    rw [hx]

/-- Claim C10: for every input 4-tuple, the composite returned by the Potential
Model Builder contains exactly four components, with the names "bulge",
"disk", "nucl", "halo", inserted in exactly that order. -/
theorem get_potential_four_named_components (lib : ProfileLib)
    (log_M_h log_r_s log_M_n log_a : ℝ) :
    (get_potential lib log_M_h log_r_s log_M_n log_a).length = 4 ∧
    (get_potential lib log_M_h log_r_s log_M_n log_a).map Component.name
      = ["bulge", "disk", "nucl", "halo"] :=
  ⟨rfl, rfl⟩

/-- Claim C6: the bulge and disk components are independent of the four input
parameters; for every input the bulge is a Hernquist component of mass
5e9 and scale 1, and the disk a Miyamoto-Nagai component of mass 6.8e10
Msun, scale length 3 kpc, scale height 280 pc. -/
theorem bulge_disk_fixed (lib : ProfileLib) (a b c d a₂ b₂ c₂ d₂ : ℝ) :
    (get_potential lib a b c d)[0]? = some (HernquistPotential lib "bulge" 5e9 1) ∧
    (get_potential lib a b c d)[1]? = some (MiyamotoNagaiPotential lib "disk" 6.8e10 3 280) ∧
    (get_potential lib a b c d)[0]? = (get_potential lib a₂ b₂ c₂ d₂)[0]? ∧
    (get_potential lib a b c d)[1]? = (get_potential lib a₂ b₂ c₂ d₂)[1]? :=
  ⟨rfl, rfl, rfl, rfl⟩

/-- Claim C4: the Potential Model Builder exponentiates each of its four inputs
to obtain the corresponding physical quantity (nucleus mass
`exp log_M_n`, nucleus scale length `exp log_a`, halo mass `exp log_M_h`,
halo scale radius `exp log_r_s`), and every exponentiated value is
strictly positive. -/
theorem get_potential_exponentiates (lib : ProfileLib)
    (log_M_h log_r_s log_M_n log_a : ℝ) :
    ((get_potential lib log_M_h log_r_s log_M_n log_a).map Component.params
      = [ProfileParams.hernquist 5e9 1, ProfileParams.miyamotoNagai 6.8e10 3 280,
         ProfileParams.hernquist (Real.exp log_M_n) (Real.exp log_a),
         ProfileParams.nfw (Real.exp log_M_h) (Real.exp log_r_s)]) ∧
    0 < Real.exp log_M_h ∧ 0 < Real.exp log_r_s ∧
    0 < Real.exp log_M_n ∧ 0 < Real.exp log_a :=
  ⟨rfl, Real.exp_pos _, Real.exp_pos _, Real.exp_pos _, Real.exp_pos _⟩

/-- Claim C5: for every parameter vector and every radius r > 0, the composite's
enclosed mass at r is the sum of the enclosed masses of its four
components (bulge, disk, nucleus, halo) at r. -/
theorem mass_enclosed_additive (lib : ProfileLib)
    (log_M_h log_r_s log_M_n log_a r : ℝ) (hr : 0 < r) :
    mass_enclosed (get_potential lib log_M_h log_r_s log_M_n log_a) (r, 0, 0) =
      (HernquistPotential lib "bulge" 5e9 1).massEnclosed (r, 0, 0)
      + (MiyamotoNagaiPotential lib "disk" 6.8e10 3 280).massEnclosed (r, 0, 0)
      + (HernquistPotential lib "nucl" (Real.exp log_M_n) (Real.exp log_a)).massEnclosed (r, 0, 0)
      + (NFWPotential lib "halo" (Real.exp log_M_h) (Real.exp log_r_s)).massEnclosed (r, 0, 0) := by
  simp [mass_enclosed, get_potential]
  ring

/-- Witness for C5 at the concrete radius 1 with the trivial profile
library and the zero log-parameter vector. -/
theorem mass_enclosed_additive_witness :
    (0:ℝ) < 1 ∧
    mass_enclosed (get_potential toyLib 0 0 0 0) ((1:ℝ), (0:ℝ), (0:ℝ)) =
      (HernquistPotential toyLib "bulge" 5e9 1).massEnclosed (1, 0, 0)
      + (MiyamotoNagaiPotential toyLib "disk" 6.8e10 3 280).massEnclosed (1, 0, 0)
      + (HernquistPotential toyLib "nucl" (Real.exp 0) (Real.exp 0)).massEnclosed (1, 0, 0)
      + (NFWPotential toyLib "halo" (Real.exp 0) (Real.exp 0)).massEnclosed (1, 0, 0) :=
  ⟨one_pos, mass_enclosed_additive toyLib 0 0 0 0 1 one_pos⟩

end MWModel

namespace MWModel

/-- Claim C9: the Residual Function evaluates the model at the 3D position
`(r_i, 0, 0)` for each observed radius: the all-zero 3×N array with the
radii written into the x row equals the list of positions `(r_i, 0, 0)`,
and `err_func` is exactly the normalized residual computed at those
positions. -/
theorem err_func_positions (r : List ℝ) :
    set_x_row r (np_zeros3 r.length) = r.map (fun ri => ((ri, 0, 0) : Vec3)) ∧
    ∀ (lib : ProfileLib) (p : ℝ × ℝ × ℝ × ℝ) (Menc Menc_err : List ℝ),
      err_func lib p r Menc Menc_err =
        List.zipWith (fun x y => x / y)
          (List.zipWith (fun x y => x - y)
            ((r.map (fun ri => ((ri, 0, 0) : Vec3))).map
              (mass_enclosed (get_potential lib p.1 p.2.1 p.2.2.1 p.2.2.2)))
            Menc)
          Menc_err := by
  refine ⟨set_x_row_np_zeros3 r, fun lib p Menc Menc_err => ?_⟩
  unfold err_func
  rw [set_x_row_np_zeros3 r]

/-- Claim C2: for same-length inputs the Residual Function returns an N-length
sequence whose i-th element is
`(mass_enclosed (get_potential p) (r_i, 0, 0) - Menc_i) / Menc_err_i`. -/
theorem err_func_residuals (lib : ProfileLib) (p : ℝ × ℝ × ℝ × ℝ)
    (r Menc Menc_err : List ℝ)
    (hM : Menc.length = r.length) (hE : Menc_err.length = r.length) :
    (err_func lib p r Menc Menc_err).length = r.length ∧
    ∀ (i : ℕ) (ri mi ei : ℝ),
      r[i]? = some ri → Menc[i]? = some mi → Menc_err[i]? = some ei →
      (err_func lib p r Menc Menc_err)[i]? =
        some ((mass_enclosed (get_potential lib p.1 p.2.1 p.2.2.1 p.2.2.2) (ri, 0, 0) - mi) / ei) := by
  constructor
  · unfold err_func
    rw [set_x_row_np_zeros3 r]
    simp [List.length_zipWith, hM, hE]
  · intro i ri mi ei hri hmi hei
    unfold err_func
    rw [set_x_row_np_zeros3 r]
    exact getElem?_zipWith_some _ _ _ i _ ei
      (getElem?_zipWith_some _ _ _ i _ mi
        (getElem?_map_some _ _ i _ (getElem?_map_some _ r i ri hri)) hmi) hei

/-- Witness for C2 on the concrete data r = [1, 2], Menc = [3, 4],
Menc_err = [1, 2] with the trivial profile library. -/
theorem err_func_residuals_witness :
    ([(3:ℝ), 4].length = [(1:ℝ), 2].length) ∧
    ([(1:ℝ), 2].length = [(1:ℝ), 2].length) ∧
    ((err_func toyLib (0, 0, 0, 0) [1, 2] [3, 4] [1, 2]).length = [(1:ℝ), 2].length ∧
     ∀ (i : ℕ) (ri mi ei : ℝ),
       ([(1:ℝ), 2])[i]? = some ri → ([(3:ℝ), 4])[i]? = some mi →
       ([(1:ℝ), 2])[i]? = some ei →
       (err_func toyLib (0, 0, 0, 0) [1, 2] [3, 4] [1, 2])[i]? =
         some ((mass_enclosed (get_potential toyLib 0 0 0 0) (ri, 0, 0) - mi) / ei)) :=
  ⟨rfl, rfl, err_func_residuals toyLib (0, 0, 0, 0) [1, 2] [3, 4] [1, 2] rfl rfl⟩

/-- Claim C3: the symmetrized uncertainty passed to the Residual Function is the
elementwise maximum of the positive and negative uncertainty columns:
its i-th entry is `max (err_pos_i) (err_neg_i)`. -/
theorem symmetrized_err_elementwise_max (err_pos err_neg : List ℝ) (i : ℕ) (epi eni : ℝ)
    (hp : err_pos[i]? = some epi) (hn : err_neg[i]? = some eni) :
    (symmetrized_err err_pos err_neg)[i]? = some (max epi eni) :=
  getElem?_zipWith_some max err_pos err_neg i epi eni hp hn

/-- Witness for C3 on the concrete columns [2] and [3] at index 0. -/
theorem symmetrized_err_elementwise_max_witness :
    (([(2:ℝ)])[0]? = some 2) ∧ (([(3:ℝ)])[0]? = some 3) ∧
    (symmetrized_err [2] [3])[0]? = some (max (2:ℝ) 3) :=
  ⟨rfl, rfl, symmetrized_err_elementwise_max [2] [3] 0 2 3 rfl rfl⟩

/-- Claim C7: the Residual Function is pure and deterministic: equal inputs give
equal residual vectors, and the evaluation factors through rebuilding
the composite potential from the parameter vector via
`get_potential`. -/
theorem err_func_pure_deterministic (lib : ProfileLib) (p q : ℝ × ℝ × ℝ × ℝ)
    (r r₂ Menc Menc₂ Menc_err Menc_err₂ : List ℝ)
    (hp : p = q) (hr : r = r₂) (hm : Menc = Menc₂) (he : Menc_err = Menc_err₂) :
    err_func lib p r Menc Menc_err = err_func lib q r₂ Menc₂ Menc_err₂ ∧
    err_func lib p r Menc Menc_err =
      (fun pot => List.zipWith (fun x y => x / y)
        (List.zipWith (fun x y => x - y)
          ((set_x_row r (np_zeros3 r.length)).map (mass_enclosed pot)) Menc) Menc_err)
        (get_potential lib p.1 p.2.1 p.2.2.1 p.2.2.2) := by
  subst hp hr hm he
  exact ⟨rfl, rfl⟩

/-- Witness for C7 on concrete equal inputs. -/
theorem err_func_pure_deterministic_witness :
    (((0:ℝ), (0:ℝ), (0:ℝ), (0:ℝ)) = ((0:ℝ), (0:ℝ), (0:ℝ), (0:ℝ))) ∧
    (err_func toyLib (0, 0, 0, 0) [1] [2] [3] = err_func toyLib (0, 0, 0, 0) [1] [2] [3] ∧
     err_func toyLib (0, 0, 0, 0) [1] [2] [3] =
       (fun pot => List.zipWith (fun x y => x / y)
         (List.zipWith (fun x y => x - y)
           ((set_x_row [1] (np_zeros3 ([(1:ℝ)]).length)).map (mass_enclosed pot)) [2]) [3])
         (get_potential toyLib 0 0 0 0)) :=
  ⟨rfl, err_func_pure_deterministic toyLib (0, 0, 0, 0) (0, 0, 0, 0)
    [1] [1] [2] [2] [3] [3] rfl rfl rfl rfl⟩

end MWModel

namespace MWModel

/-- Claim C8: if the observed masses are exactly the model's enclosed masses at
the given radii for the parameter vector p, and the uncertainties are
strictly positive and of matching length, the Residual Function returns
the zero vector. -/
theorem err_func_zero_at_perfect_fit (lib : ProfileLib) (p : ℝ × ℝ × ℝ × ℝ)
    (r Menc_err : List ℝ)
    (hpos : ∀ e ∈ Menc_err, 0 < e) (hlen : Menc_err.length = r.length) :
    err_func lib p r
      (r.map (fun ri =>
        mass_enclosed (get_potential lib p.1 p.2.1 p.2.2.1 p.2.2.2) (ri, 0, 0)))
      Menc_err
      = List.replicate r.length 0 := by
  unfold err_func
  rw [set_x_row_np_zeros3 r]
  simp only [List.map_map, Function.comp_def]
  have := residuals_of_exact_model
    (r.map (fun ri =>
      mass_enclosed (get_potential lib p.1 p.2.1 p.2.2.1 p.2.2.2) (ri, 0, 0)))
    Menc_err (by simpa using hlen)
  rw [this, List.length_map]

/-- Witness for C8 on the concrete radius list [1] with uncertainty [2]
and the trivial profile library at the zero parameter vector. -/
theorem err_func_zero_at_perfect_fit_witness :
    (∀ e ∈ [(2:ℝ)], 0 < e) ∧ ([(2:ℝ)].length = [(1:ℝ)].length) ∧
    err_func toyLib (0, 0, 0, 0) [1]
      ([(1:ℝ)].map (fun ri =>
        mass_enclosed (get_potential toyLib 0 0 0 0) (ri, 0, 0)))
      [2]
      = List.replicate ([(1:ℝ)]).length 0 := by
  refine ⟨?_, rfl, err_func_zero_at_perfect_fit toyLib (0, 0, 0, 0) [1] [2] ?_ rfl⟩
  all_goals
    intro e he
    simp only [List.mem_singleton] at he
    rw [he]
    norm_num

/-- Claim C1: the Optimizer Driver succeeds (returns a result) exactly when the
solver's status code is one of 1, 2, 3, 4; for every other status code
it halts with the failure message "least-squares fit failed!" and
produces no result. -/
theorem fit_driver_status_contract (lib : ProfileLib) (leastsq : Solver)
    (r Menc err_pos err_neg : List ℝ) (p : ℝ × ℝ × ℝ × ℝ) (ier : ℤ)
    (h : leastsq (fun q => err_func lib q r Menc (symmetrized_err err_pos err_neg)) x0
      = (p, ier)) :
    ((∃ out, fit_driver lib leastsq r Menc err_pos err_neg = Except.ok out) ↔
      (ier = 1 ∨ ier = 2 ∨ ier = 3 ∨ ier = 4)) ∧
    (¬(ier = 1 ∨ ier = 2 ∨ ier = 3 ∨ ier = 4) →
      fit_driver lib leastsq r Menc err_pos err_neg
        = Except.error "least-squares fit failed!") := by
  have hdr : fit_driver lib leastsq r Menc err_pos err_neg =
      if 1 ≤ ier ∧ ier < 5 then
        Except.ok (p, get_potential lib p.1 p.2.1 p.2.2.1 p.2.2.2)
      else Except.error "least-squares fit failed!" := by
    unfold fit_driver
    simp only [h]
  have hiff : (1 ≤ ier ∧ ier < 5) ↔ (ier = 1 ∨ ier = 2 ∨ ier = 3 ∨ ier = 4) := by omega
  constructor
  · constructor
    · rintro ⟨out, hout⟩
      rw [hdr] at hout
      by_cases hc : 1 ≤ ier ∧ ier < 5
      · exact hiff.mp hc
      · rw [if_neg hc] at hout
        simp at hout
    · intro h4
      refine ⟨(p, get_potential lib p.1 p.2.1 p.2.2.1 p.2.2.2), ?_⟩
      rw [hdr, if_pos (hiff.mpr h4)]
  · intro h4
    rw [hdr, if_neg (fun hc => h4 (hiff.mp hc))]

/-- Witness for C1 with the trivial solver (status code 1) on empty data:
the driver succeeds, and the failure branch is vacuous. -/
theorem fit_driver_status_contract_witness :
    (toySolver (fun q => err_func toyLib q [] [] (symmetrized_err [] [])) x0
      = ((0, 0, 0, 0), 1)) ∧
    (((∃ out, fit_driver toyLib toySolver [] [] [] [] = Except.ok out) ↔
        ((1:ℤ) = 1 ∨ (1:ℤ) = 2 ∨ (1:ℤ) = 3 ∨ (1:ℤ) = 4)) ∧
      (¬((1:ℤ) = 1 ∨ (1:ℤ) = 2 ∨ (1:ℤ) = 3 ∨ (1:ℤ) = 4) →
        fit_driver toyLib toySolver [] [] [] []
          = Except.error "least-squares fit failed!")) :=
  ⟨rfl, fit_driver_status_contract toyLib toySolver [] [] [] [] (0, 0, 0, 0) 1 rfl⟩

end MWModel
